import Mathlib

/-!
Verification of the numeric core of the Siamese-Phase-Cosmology scripts:
the semi-implicit Euler integrator for the Van der Pol oscillator
(`integrate_vdp` in `make_phase_portrait_emergent_time.py`), the
damped-pendulum loop of `phase_limit_cycle.py`, and the transient /
limit-cycle segmentation performed in `main`.

Machine floats are modelled as elements of an arbitrary commutative ring
(the scripts only use `+`, `-`, `*` on state values), and `np.sin` is an
uninterpreted function parameter.  The `ValueError` that `np.empty` raises
on a negative size is modelled by an `Option` result.
-/

namespace Siamese

variable {α : Type} [CommRing α]

/-- Van der Pol acceleration law, from the loop body of `integrate_vdp`:
`a = mu * (1.0 - x * x) * v - x`. -/
def vdpLaw (mu x v : α) : α :=
  mu * (1 - x * x) * v - x

/-- Damped-pendulum acceleration law, from the loop body of
`phase_limit_cycle.py`:
`phiddot = -epsilon*(phi**2 - 1)*phidot - omega0**2*np.sin(phi)`,
with `np.sin` abstracted as the function argument `sin`. -/
def pendLaw (sin : α → α) (epsilon omega0 x v : α) : α :=
  -epsilon * (x ^ 2 - 1) * v - omega0 ^ 2 * sin x

/-- One iteration of the shared update scheme of both script loops:
`a = law x v; v += a * dt; x += v * dt` (semi-implicit Euler: the velocity
is updated with the old acceleration, the position with the new velocity). -/
def integStep (law : α → α → α) (dt : α) (s : α × α) : α × α :=
  let a := law s.1 s.2
  let v := s.2 + a * dt
  let x := s.1 + v * dt
  (x, v)

/-- The state after `n` update steps starting from `s`. -/
def traj (law : α → α → α) (dt : α) (s : α × α) : ℕ → α × α
  | 0 => s
  | n + 1 => integStep law dt (traj law dt s n)

/-- The numeric content of the integration loop of `integrate_vdp`: starting
from state `s`, perform `n` update steps, recording the post-update
`(position, velocity)` of each step in order into two sequences. -/
def integLoop (law : α → α → α) (dt : α) : α × α → ℕ → List α × List α
  | _, 0 => ([], [])
  | s, n + 1 =>
    ((integStep law dt s).1 :: (integLoop law dt (integStep law dt s) n).1,
     (integStep law dt s).2 :: (integLoop law dt (integStep law dt s) n).2)

/-- The integrator: `integrate(law, params, x0, v0, dt, steps)` returns the
pair `(positions, velocities)`; parameters are closed over by `law`. -/
def integrate (law : α → α → α) (dt x0 v0 : α) (steps : ℕ) : List α × List α :=
  integLoop law dt (x0, v0) steps

/-- Progress checkpoint interval of `integrate_vdp`:
`checkpoint = max(1, steps // 20)`. -/
def checkpoint (steps : ℕ) : ℕ :=
  max 1 (steps / 20)

/-- Progress percentage printed inside the loop of `integrate_vdp`:
`pct = int(100 * (i + 1) / steps)`. -/
def pct (steps i : ℕ) : ℕ :=
  100 * (i + 1) / steps

/-- The loop of `integrate_vdp` with its progress side channel.
`vdpLoop mu dt m sp s i n` runs the remaining `n` of the `m` total
iterations with loop counter starting at `i`: each iteration records the
post-update position and velocity, and, when `sp` (show_progress) holds and
`i % checkpoint == 0 or i == steps - 1`, also records the printed
percentage in the third component. -/
def vdpLoop (mu dt : α) (m : ℕ) (sp : Bool) : α × α → ℕ → ℕ → List α × List α × List ℕ
  | _, _, 0 => ([], [], [])
  | s, i, n + 1 =>
    ((integStep (vdpLaw mu) dt s).1 :: (vdpLoop mu dt m sp (integStep (vdpLaw mu) dt s) (i + 1) n).1,
     (integStep (vdpLaw mu) dt s).2 :: (vdpLoop mu dt m sp (integStep (vdpLaw mu) dt s) (i + 1) n).2.1,
     if sp ∧ (i % checkpoint m = 0 ∨ i = m - 1)
       then pct m i :: (vdpLoop mu dt m sp (integStep (vdpLaw mu) dt s) (i + 1) n).2.2
       else (vdpLoop mu dt m sp (integStep (vdpLaw mu) dt s) (i + 1) n).2.2)

/-- `integrate_vdp(mu, dt, steps, x0, v0, show_progress)`.  The Python
`steps` is an arbitrary integer; `np.empty(int(steps))` raises `ValueError`
for a negative size before any loop iteration runs, modelled as `none`.
Otherwise the result holds `(positions, velocities, progress log)`. -/
def integrate_vdp (mu dt : α) (steps : ℤ) (x0 v0 : α) (sp : Bool) :
    Option (List α × List α × List ℕ) :=
  if steps < 0 then none
  else some (vdpLoop mu dt steps.toNat sp (x0, v0) 0 steps.toNat)

/-- The loop of `phase_limit_cycle.py`: same update scheme with the
damped-pendulum law, but only the position `phi` is appended to the output
list at each step. -/
def phiLoop (sin : α → α) (epsilon omega0 dt : α) : α × α → ℕ → List α
  | _, 0 => []
  | s, n + 1 =>
    (integStep (pendLaw sin epsilon omega0) dt s).1 ::
      phiLoop sin epsilon omega0 dt (integStep (pendLaw sin epsilon omega0) dt s) n

/-- `phi_list` as produced by `phase_limit_cycle.py` after `steps`
iterations from initial conditions `(phi0, phidot0)`. -/
def phi_list (sin : α → α) (epsilon omega0 dt phi0 phidot0 : α) (steps : ℕ) : List α :=
  phiLoop sin epsilon omega0 dt (phi0, phidot0) steps

/-- Segmentation from `main`:
`transient = max(0, min(transient, len(xs) - 1))`, then
`xs[:transient]` / `xs[transient:]` (applied alike to `xs` and `vs`). -/
def segment {β : Type} (tr : List β) (k : ℤ) : List β × List β :=
  let eff : ℤ := max 0 (min k ((tr.length : ℤ) - 1))
  (tr.take eff.toNat, tr.drop eff.toNat)

/-- Buffer-level model of `integrate_vdp`: the two output arrays are
allocated uninitialized (`np.empty`), modelled as lists of `Option α`
filled with `none`; the loop body stores `xs[i] = x; vs[i] = v`. -/
def bufLoop (law : α → α → α) (dt : α) :
    α × α → ℕ → ℕ → List (Option α) × List (Option α) → List (Option α) × List (Option α)
  | _, _, 0, bufs => bufs
  | s, i, n + 1, bufs =>
    bufLoop law dt (integStep law dt s) (i + 1) n
      (bufs.1.set i (some (integStep law dt s).1),
       bufs.2.set i (some (integStep law dt s).2))

/-- Allocation plus loop of `integrate_vdp` at the buffer level:
`xs = np.empty(steps); vs = np.empty(steps)` then the write loop. -/
def integrateBuf (law : α → α → α) (dt x0 v0 : α) (steps : ℕ) :
    List (Option α) × List (Option α) :=
  bufLoop law dt (x0, v0) 0 steps
    (List.replicate steps none, List.replicate steps none)

/-! ### Helper lemmas -/

lemma traj_shift (law : α → α → α) (dt : α) (s : α × α) :
    ∀ n, traj law dt (integStep law dt s) n = traj law dt s (n + 1) := by
  intro n
  induction n with
  | zero => rfl
  | succ n ih => simp only [traj, ih]

lemma integLoop_length (law : α → α → α) (dt : α) :
    ∀ (n : ℕ) (s : α × α),
      (integLoop law dt s n).1.length = n ∧ (integLoop law dt s n).2.length = n := by
  intro n
  induction n with
  | zero => intro s; exact ⟨rfl, rfl⟩
  | succ n ih =>
    intro s
    simpa [integLoop] using ih (integStep law dt s)

lemma integLoop_getD (law : α → α → α) (dt : α) :
    ∀ (n i : ℕ) (s : α × α), i < n →
      (integLoop law dt s n).1.getD i 0 = (traj law dt s (i + 1)).1 ∧
      (integLoop law dt s n).2.getD i 0 = (traj law dt s (i + 1)).2 := by
  intro n
  induction n with
  | zero => intro i s h; exact absurd h (Nat.not_lt_zero i)
  | succ n ih =>
    intro i s h
    cases i with
    | zero =>
      constructor <;> simp [integLoop, traj]
    | succ i =>
      have h' : i < n := Nat.lt_of_succ_lt_succ h
      have hrec := ih i (integStep law dt s) h'
      constructor
      · simpa [integLoop, traj_shift] using hrec.1
      · simpa [integLoop, traj_shift] using hrec.2

lemma vdpLoop_eq_integLoop (mu dt : α) (m : ℕ) (sp : Bool) :
    ∀ (n i : ℕ) (s : α × α),
      (vdpLoop mu dt m sp s i n).1 = (integLoop (vdpLaw mu) dt s n).1 ∧
      (vdpLoop mu dt m sp s i n).2.1 = (integLoop (vdpLaw mu) dt s n).2 := by
  intro n
  induction n with
  | zero => intro i s; exact ⟨rfl, rfl⟩
  | succ n ih =>
    intro i s
    simpa [vdpLoop, integLoop] using ih (i + 1) (integStep (vdpLaw mu) dt s)

lemma phiLoop_eq_integLoop (sin : α → α) (epsilon omega0 dt : α) :
    ∀ (n : ℕ) (s : α × α),
      phiLoop sin epsilon omega0 dt s n =
        (integLoop (pendLaw sin epsilon omega0) dt s n).1 := by
  intro n
  induction n with
  | zero => intro s; rfl
  | succ n ih =>
    intro s
    simpa [phiLoop, integLoop] using
      ih (integStep (pendLaw sin epsilon omega0) dt s)

lemma take_set_succ {β : Type} :
    ∀ (l : List β) (i : ℕ) (a : β), i < l.length →
      (l.set i a).take (i + 1) = l.take i ++ [a] := by
  intro l
  induction l with
  | nil => intro i a h; exact absurd h (Nat.not_lt_zero i)
  | cons b t ih =>
    intro i a h
    cases i with
    | zero => rfl
    | succ i =>
      have h' : i < t.length := Nat.lt_of_succ_lt_succ h
      simp [List.take_succ_cons, ih i a h']

lemma bufLoop_eq (law : α → α → α) (dt : α) :
    ∀ (n : ℕ) (s : α × α) (i : ℕ) (bx bv : List (Option α)),
      bx.length = i + n → bv.length = i + n →
      bufLoop law dt s i n (bx, bv) =
        (bx.take i ++ (integLoop law dt s n).1.map some,
         bv.take i ++ (integLoop law dt s n).2.map some) := by
  intro n
  induction n with
  | zero =>
    intro s i bx bv hx hv
    have hx' : bx.take i = bx := List.take_of_length_le (by omega)
    have hv' : bv.take i = bv := List.take_of_length_le (by omega)
    simp [bufLoop, integLoop, hx', hv']
  | succ n ih =>
    intro s i bx bv hx hv
    have hxlen : i < bx.length := by omega
    have hvlen : i < bv.length := by omega
    have hx' : (bx.set i (some (integStep law dt s).1)).length = (i + 1) + n := by
      simp [hx]; omega
    have hv' : (bv.set i (some (integStep law dt s).2)).length = (i + 1) + n := by
      simp [hv]; omega
    rw [bufLoop, ih (integStep law dt s) (i + 1) _ _ hx' hv',
        take_set_succ _ _ _ hxlen, take_set_succ _ _ _ hvlen]
    simp [integLoop]

/-! ### Claim theorems -/

/-- Claim C2: the Van der Pol law returns exactly
`mu * (1 - position^2) * velocity - position`, and the damped-pendulum law
returns exactly `-epsilon * (position^2 - 1) * velocity - omega0^2 * sin(position)`;
both are pure functions of `(state, params)`. -/
theorem acceleration_law_forms (sin : α → α) (mu epsilon omega0 x v : α) :
    vdpLaw mu x v = mu * (1 - x ^ 2) * v - x ∧
    pendLaw sin epsilon omega0 x v = -epsilon * (x ^ 2 - 1) * v - omega0 ^ 2 * sin x := by
  constructor
  · unfold vdpLaw; ring
  · rfl

/-- Claim C8: with the damping coefficient `mu` set to 0, the Van der Pol
acceleration law reduces to the harmonic oscillator: `acceleration = -position`
for every state. -/
theorem zero_damping_degeneracy (x v : α) :
    vdpLaw 0 x v = -x := by
  unfold vdpLaw; ring

/-- Claim C5: for `steps < 0` the integration is rejected as an invalid
configuration before any step runs (`np.empty` raises `ValueError`), and no
partial output is produced. -/
theorem invalid_step_count (mu dt x0 v0 : α) (sp : Bool) (steps : ℤ)
    (h : steps < 0) :
    integrate_vdp mu dt steps x0 v0 sp = none := by
  simp [integrate_vdp, h]

theorem invalid_step_count_witness :
    (-1 : ℤ) < 0 ∧ integrate_vdp (1 : ℚ) 1 (-1) 0 0 true = none :=
  ⟨by decide, invalid_step_count 1 1 0 0 true (-1) (by decide)⟩

/-- Claim C9: the progress computation never divides or takes a modulus by
zero: the checkpoint interval `max(1, steps // 20)` is always positive, and
a run with `steps = 0` never executes the loop body, so no percentage is
ever computed (the progress log is empty). -/
theorem progress_division_safety (steps : ℕ) (mu dt x0 v0 : α) (sp : Bool) :
    0 < checkpoint steps ∧
    integrate_vdp mu dt 0 x0 v0 sp = some ([], [], []) := by
  constructor
  · exact lt_of_lt_of_le one_pos (le_max_left 1 _)
  · simp [integrate_vdp, vdpLoop]

/-- Claim C1: the integrator follows the semi-implicit Euler ordering: at
every step the acceleration comes from the old state, the velocity is
updated first with it, the position is updated with the new velocity, and
the post-update pair is recorded as that step's output (so output index `i`
holds the state after `i + 1` updates and the initial state is never
recorded); in particular `velocities[0] = v0 + law(x0,v0)*dt` and
`positions[0] = x0 + velocities[0]*dt`. -/
theorem update_order_invariant (law : α → α → α) (dt x0 v0 : α) (steps : ℕ)
    (h : 1 ≤ steps) :
    (∀ i, i < steps →
        (integrate law dt x0 v0 steps).2.getD i 0 =
          (traj law dt (x0, v0) i).2 +
            law (traj law dt (x0, v0) i).1 (traj law dt (x0, v0) i).2 * dt ∧
        (integrate law dt x0 v0 steps).1.getD i 0 =
          (traj law dt (x0, v0) i).1 +
            (integrate law dt x0 v0 steps).2.getD i 0 * dt) ∧
    (integrate law dt x0 v0 steps).2.getD 0 0 = v0 + law x0 v0 * dt ∧
    (integrate law dt x0 v0 steps).1.getD 0 0 =
      x0 + (integrate law dt x0 v0 steps).2.getD 0 0 * dt ∧
    (integrate law dt x0 v0 steps).1.length = steps ∧
    (integrate law dt x0 v0 steps).2.length = steps := by
  have main : ∀ i, i < steps →
      (integrate law dt x0 v0 steps).2.getD i 0 =
        (traj law dt (x0, v0) i).2 +
          law (traj law dt (x0, v0) i).1 (traj law dt (x0, v0) i).2 * dt ∧
      (integrate law dt x0 v0 steps).1.getD i 0 =
        (traj law dt (x0, v0) i).1 +
          (integrate law dt x0 v0 steps).2.getD i 0 * dt := by
    intro i hi
    have hg := integLoop_getD law dt steps i (x0, v0) hi
    constructor
    · rw [integrate, hg.2]
      simp [traj, integStep]
    · rw [integrate, hg.1, hg.2]
      simp [traj, integStep]
  have h0 := main 0 h
  refine ⟨main, ?_, ?_, (integLoop_length law dt steps (x0, v0)).1,
    (integLoop_length law dt steps (x0, v0)).2⟩
  · simpa [traj] using h0.1
  · simpa [traj] using h0.2

theorem update_order_invariant_witness :
    (1 : ℕ) ≤ 1 ∧
    ((∀ i, i < 1 →
        (integrate (vdpLaw (1 : ℚ)) 1 0 1 1).2.getD i 0 =
          (traj (vdpLaw 1) 1 (0, 1) i).2 +
            vdpLaw 1 (traj (vdpLaw 1) 1 (0, 1) i).1 (traj (vdpLaw 1) 1 (0, 1) i).2 * 1 ∧
        (integrate (vdpLaw (1 : ℚ)) 1 0 1 1).1.getD i 0 =
          (traj (vdpLaw 1) 1 (0, 1) i).1 +
            (integrate (vdpLaw (1 : ℚ)) 1 0 1 1).2.getD i 0 * 1) ∧
      (integrate (vdpLaw (1 : ℚ)) 1 0 1 1).2.getD 0 0 = 1 + vdpLaw 1 0 1 * 1 ∧
      (integrate (vdpLaw (1 : ℚ)) 1 0 1 1).1.getD 0 0 =
        0 + (integrate (vdpLaw (1 : ℚ)) 1 0 1 1).2.getD 0 0 * 1 ∧
      (integrate (vdpLaw (1 : ℚ)) 1 0 1 1).1.length = 1 ∧
      (integrate (vdpLaw (1 : ℚ)) 1 0 1 1).2.length = 1) :=
  ⟨le_refl 1, update_order_invariant (vdpLaw 1) 1 0 1 1 (le_refl 1)⟩

/-- Claim C3: one integration run records position and velocity at every
step into two index-aligned sequences of length exactly `steps`, with
`steps = 0` yielding two empty sequences; this holds for any acceleration
law (hence for both oscillator variants), for `integrate_vdp` itself, and
the `phase_limit_cycle.py` loop's recorded positions also number `steps`. -/
theorem length_invariant (law : α → α → α) (sin : α → α)
    (mu epsilon omega0 dt x0 v0 : α) (steps : ℕ) (sp : Bool) :
    (integrate law dt x0 v0 steps).1.length = steps ∧
    (integrate law dt x0 v0 steps).2.length = steps ∧
    integrate law dt x0 v0 0 = ([], []) ∧
    (integrate_vdp mu dt (steps : ℤ) x0 v0 sp).map
        (fun r => (r.1.length, r.2.1.length)) = some (steps, steps) ∧
    (phi_list sin epsilon omega0 dt x0 v0 steps).length = steps := by
  refine ⟨(integLoop_length law dt steps (x0, v0)).1,
    (integLoop_length law dt steps (x0, v0)).2, rfl, ?_, ?_⟩
  · have hnn : ¬((steps : ℤ) < 0) := not_lt.mpr (Int.natCast_nonneg steps)
    have hv := vdpLoop_eq_integLoop mu dt steps sp steps 0 (x0, v0)
    simp only [integrate_vdp, hnn, if_false, Int.toNat_natCast, Option.map_some']
    rw [hv.1, hv.2, (integLoop_length (vdpLaw mu) dt steps (x0, v0)).1,
      (integLoop_length (vdpLaw mu) dt steps (x0, v0)).2]
  · rw [phi_list, phiLoop_eq_integLoop]
    exact (integLoop_length (pendLaw sin epsilon omega0) dt steps (x0, v0)).1

/-- Claim C4: segmentation never fails: for a trajectory of length `N ≥ 1`
and any integer `k`, the effective split index is `max 0 (min k (N-1))`,
which lies in `[0, N-1]`; the transient is the prefix up to it, the cycle
is the rest, and their lengths sum to `N`. -/
theorem segmentation_clamping {β : Type} (tr : List β) (k : ℤ)
    (h : 1 ≤ tr.length) :
    0 ≤ max 0 (min k ((tr.length : ℤ) - 1)) ∧
    max 0 (min k ((tr.length : ℤ) - 1)) ≤ (tr.length : ℤ) - 1 ∧
    segment tr k =
      (tr.take (max 0 (min k ((tr.length : ℤ) - 1))).toNat,
       tr.drop (max 0 (min k ((tr.length : ℤ) - 1))).toNat) ∧
    (segment tr k).1.length + (segment tr k).2.length = tr.length := by
  have hN : (1 : ℤ) ≤ (tr.length : ℤ) := by exact_mod_cast h
  refine ⟨le_max_left 0 _, max_le (by omega) (min_le_right _ _), rfl, ?_⟩
  simp only [segment, List.length_take, List.length_drop]
  omega

theorem segmentation_clamping_witness :
    1 ≤ List.length [(5 : ℕ)] ∧
    (0 ≤ max 0 (min 99 ((List.length [(5 : ℕ)] : ℤ) - 1)) ∧
     max 0 (min 99 ((List.length [(5 : ℕ)] : ℤ) - 1)) ≤ (List.length [(5 : ℕ)] : ℤ) - 1 ∧
     segment [(5 : ℕ)] 99 =
       ([(5 : ℕ)].take (max 0 (min 99 ((List.length [(5 : ℕ)] : ℤ) - 1))).toNat,
        [(5 : ℕ)].drop (max 0 (min 99 ((List.length [(5 : ℕ)] : ℤ) - 1))).toNat) ∧
     (segment [(5 : ℕ)] 99).1.length + (segment [(5 : ℕ)] 99).2.length =
       List.length [(5 : ℕ)]) :=
  ⟨by decide, segmentation_clamping [(5 : ℕ)] 99 (by decide)⟩

/-- Claim C6: determinism: two runs of `integrate` on identical inputs
`(law, params, x0, v0, dt, steps)` produce identical output sequences
(the embedding is a pure function of its inputs). -/
theorem integrate_deterministic (law law' : α → α → α) (dt dt' x0 x0' v0 v0' : α)
    (steps steps' : ℕ) (h1 : law = law') (h2 : dt = dt') (h3 : x0 = x0')
    (h4 : v0 = v0') (h5 : steps = steps') :
    integrate law dt x0 v0 steps = integrate law' dt' x0' v0' steps' := by
  rw [h1, h2, h3, h4, h5]

theorem integrate_deterministic_witness :
    vdpLaw (2 : ℚ) = vdpLaw 2 ∧ (1 : ℚ) = 1 ∧ (0 : ℚ) = 0 ∧ (1 : ℚ) = 1 ∧
    (3 : ℕ) = 3 ∧
    integrate (vdpLaw (2 : ℚ)) 1 0 1 3 = integrate (vdpLaw 2) 1 0 1 3 :=
  ⟨rfl, rfl, rfl, rfl, rfl,
   integrate_deterministic (vdpLaw 2) (vdpLaw 2) 1 1 0 0 1 1 3 3 rfl rfl rfl rfl rfl⟩

/-- Claim C7: the `show_progress` flag affects no recorded numeric value:
running `integrate_vdp` with progress reporting on and off yields identical
`(positions, velocities)` sequences. -/
theorem progress_noninterference (mu dt x0 v0 : α) (steps : ℤ) :
    (integrate_vdp mu dt steps x0 v0 true).map (fun r => (r.1, r.2.1)) =
    (integrate_vdp mu dt steps x0 v0 false).map (fun r => (r.1, r.2.1)) := by
  by_cases h : steps < 0
  · simp [integrate_vdp, h]
  · have ht := vdpLoop_eq_integLoop mu dt steps.toNat true steps.toNat 0 (x0, v0)
    have hf := vdpLoop_eq_integLoop mu dt steps.toNat false steps.toNat 0 (x0, v0)
    simp only [integrate_vdp, h, if_false, Option.map_some']
    rw [ht.1, ht.2, hf.1, hf.2]

/-- Claim C10: although the output buffers start uninitialized, the loop
fills every index: the buffer run equals `some` of the recorded trajectory
pointwise, so the returned sequences contain no uninitialized element. -/
theorem buffers_fully_written (law : α → α → α) (dt x0 v0 : α) (steps : ℕ) :
    integrateBuf law dt x0 v0 steps =
      ((integrate law dt x0 v0 steps).1.map some,
       (integrate law dt x0 v0 steps).2.map some) ∧
    (∀ o ∈ (integrateBuf law dt x0 v0 steps).1, o.isSome) ∧
    (∀ o ∈ (integrateBuf law dt x0 v0 steps).2, o.isSome) := by
  have he : integrateBuf law dt x0 v0 steps =
      ((integrate law dt x0 v0 steps).1.map some,
       (integrate law dt x0 v0 steps).2.map some) := by
    rw [integrateBuf,
      bufLoop_eq law dt steps (x0, v0) 0 _ _ (by simp) (by simp)]
    simp [integrate]
  refine ⟨he, ?_, ?_⟩ <;>
    · rw [he]
      intro o ho
      simp only [List.mem_map] at ho
      obtain ⟨a, _, rfl⟩ := ho
      rfl

end Siamese
